import Mathlib

/-!
Verification development for the onboarding analytics dashboard
(`streamlit_app.py`).  The file shallowly embeds the data model and
operations of the pipeline — schema normalization (`load_data`),
per-user and period-wide aggregation, verification-type tally merging,
and the Excel export table builder — and proves or refutes the
specified properties.

Python dicts are modelled as insertion-ordered association lists,
Python ints as `Int`, absent fields as `Option`, and the stable Python
`sorted` as a stable insertion sort parameterised by the strict
"comes before" relation induced by the sort key.
-/

set_option maxRecDepth 8000

/-! ## Definitions: lexicographic string comparison (Python `<` on strings) -/

/-- Lexicographic comparison of character lists by code point, mirroring
how Python compares strings. -/
def listCharLt : List Char → List Char → Bool
  | _, [] => false
  | [], _ :: _ => true
  | c :: cs, d :: ds => if c = d then listCharLt cs ds else decide (c.toNat < d.toNat)

/-- Python `<` on strings: code-point lexicographic order. -/
def pyStrLt (a b : String) : Bool := listCharLt a.data b.data

/-! ## Definitions: Python dicts as insertion-ordered association lists -/

/-- Python `d.get(k, default)`: first matching key wins. -/
def dictGet {β : Type} (t : List (String × β)) (k : String) (d : β) : β :=
  match t with
  | [] => d
  | kv :: rest => if kv.1 = k then kv.2 else dictGet rest k d

/-- Python `d[k] = v`: overwrite in place if the key is present, else
append at the end (dicts preserve insertion order). -/
def dictSet {β : Type} : List (String × β) → String → β → List (String × β)
  | [], k, v => [(k, v)]
  | kv :: rest, k, v => if kv.1 = k then (k, v) :: rest else kv :: dictSet rest k v

/-! ## Definitions: the stable Python `sorted` -/

/-- Insert `a` into `l`, placing it before the first element `b` with
`lt a b`; equal-rank elements keep their old position first (stability). -/
def pyInsert {α : Type} (lt : α → α → Bool) (a : α) : List α → List α
  | [] => [a]
  | b :: l => if lt a b then a :: b :: l else b :: pyInsert lt a l

/-- The stable Python `sorted(l, key=...)`, with `lt a b` meaning "`a`
sorts strictly before `b`" under the key. -/
def pySorted {α : Type} (lt : α → α → Bool) (l : List α) : List α :=
  l.foldl (fun acc a => pyInsert lt a acc) []

/-- Insert a string into a strictly ascending duplicate-free list,
keeping it strictly ascending and duplicate-free. -/
def insertSortedDedup (a : String) : List String → List String
  | [] => [a]
  | b :: l =>
    if a = b then b :: l
    else if pyStrLt a b then a :: b :: l
    else b :: insertSortedDedup a l

/-- Python `sorted(set(l))`: the distinct members of `l` in strictly
ascending lexicographic order. -/
def sortedSet (l : List String) : List String := l.foldr insertSortedDedup []

/-! ## Definitions: data model (`streamlit_app.py` records) -/

/-- A possible `excel_document` value of a process record: a plain URL
string, a structured reference that may carry an `s3_url` field, or
JSON `null`. -/
inductive ExcelDoc where
  | str (s : String)
  | dict (s3_url : Option String)
  | null
deriving DecidableEq

/-- One onboarding process record.  Every field may be absent
(`load_data` and the aggregation loops default absent numeric fields to
0 and an absent `verification_types_count` to the empty mapping). -/
structure ProcessRecord where
  total_individuals : Option Int
  successful_onboardings : Option Int
  failed_onboardings : Option Int
  discarded_candidates : Option Int
  verifications_initiated : Option Int
  verification_types_count : Option (List (String × Int))
  excel_document : Option ExcelDoc
deriving DecidableEq

/-- The per-user `summary` mapping of the current data shape. -/
structure UserSummary where
  total_individuals : Int
  successful_onboardings : Int
  failed_onboardings : Int
  discarded_candidates : Int
  verifications_initiated : Int
  verification_types_count : List (String × Int)
deriving DecidableEq

/-- The current-shape per-user value `{processes, summary}`. -/
structure UserData where
  processes : List ProcessRecord
  summary : UserSummary
deriving DecidableEq

/-- A per-user value of the raw input: either the legacy shape (a plain
list of process records) or the current `{processes, summary}` shape. -/
inductive RawUserValue where
  | legacy (ps : List ProcessRecord)
  | wrapped (ud : UserData)
deriving DecidableEq

/-- Raw top-level data: period key -> (user id -> raw per-user value). -/
abbrev RawData := List (String × List (String × RawUserValue))

/-- Period data in current shape: user id -> `{processes, summary}`. -/
abbrev PeriodData := List (String × UserData)

/-- A verification tally: verification-type code -> count. -/
abbrev Tally := List (String × Int)

/-! ## Definitions: `load_data` legacy detection and conversion (lines 138-181) -/

/-- Additive merge of the tally of one record into the accumulator
(lines 158-162: `user_verification_types[t] = user_verification_types.get(t, 0) + count`). -/
def mergeTallyInto (acc t : Tally) : Tally :=
  t.foldl (fun acc kv => dictSet acc kv.1 (dictGet acc kv.1 0 + kv.2)) acc

/-- The merged verification tally of one user across the process list
(lines 157-162); an absent mapping contributes nothing. -/
def userVerificationTypes (ps : List ProcessRecord) : Tally :=
  ps.foldl (fun acc p => mergeTallyInto acc ((p.verification_types_count).getD [])) []

/-- The computed summary for a legacy process list (lines 150-174):
field-wise sums with absent fields read as 0, plus the merged
verification tally. -/
def summaryOf (ps : List ProcessRecord) : UserSummary :=
  ⟨(ps.map (fun p => (p.total_individuals).getD 0)).sum,
   (ps.map (fun p => (p.successful_onboardings).getD 0)).sum,
   (ps.map (fun p => (p.failed_onboardings).getD 0)).sum,
   (ps.map (fun p => (p.discarded_candidates).getD 0)).sum,
   (ps.map (fun p => (p.verifications_initiated).getD 0)).sum,
   userVerificationTypes ps⟩

/-- Old-format detection (line 144): probe the first user value of the
first period.  Empty `data` short-circuits to "current"; a non-empty
dataset whose first period has no users hits `list(...)[0]` on an empty
list and raises `IndexError`. -/
def detectLegacy : RawData → Except String Bool
  | [] => Except.ok false
  | (_, []) :: _ => Except.error "IndexError"
  | (_, (_, RawUserValue.legacy _) :: _) :: _ => Except.ok true
  | (_, (_, RawUserValue.wrapped _) :: _) :: _ => Except.ok false

/-- Convert the users of one period (lines 149-175).  Iterating a
current-shape mapping where a list is expected makes `p.get(...)` run
on a string key and raise `AttributeError`. -/
def convertUsers : List (String × RawUserValue) → Except String (List (String × RawUserValue))
  | [] => Except.ok []
  | (u, RawUserValue.legacy ps) :: rest =>
    match convertUsers rest with
    | Except.ok rest2 => Except.ok ((u, RawUserValue.wrapped ⟨ps, summaryOf ps⟩) :: rest2)
    | Except.error e => Except.error e
  | (_, RawUserValue.wrapped _) :: _ => Except.error "AttributeError"

/-- Convert every period of a legacy dataset (lines 146-176). -/
def convertData : RawData → Except String RawData
  | [] => Except.ok []
  | (d, us) :: rest =>
    match convertUsers us with
    | Except.ok us2 =>
      match convertData rest with
      | Except.ok rest2 => Except.ok ((d, us2) :: rest2)
      | Except.error e => Except.error e
    | Except.error e => Except.error e

/-- The shape-normalization core of `load_data` (lines 143-178):
detect the old format and convert it, otherwise pass the data through
unchanged.  An uncaught Python exception is modelled as `Except.error`. -/
def load_data_convert (raw : RawData) : Except String RawData :=
  match detectLegacy raw with
  | Except.ok true => convertData raw
  | Except.ok false => Except.ok raw
  | Except.error e => Except.error e

/-- State of an on-disk input source as seen by `open` + `json.load`. -/
inductive SourceState where
  | missing
  | unparseable
  | parsed (raw : RawData)

/-- Outcome of a load function: `sourceMissing data` means the
`FileNotFoundError` branch ran (`st.error` shown, `data` returned);
`exception` is an uncaught exception propagating to the caller. -/
inductive LoadOutcome where
  | sourceMissing (data : RawData)
  | loaded (data : RawData)
  | exception (msg : String)
deriving DecidableEq

/-- `load_data` (lines 138-181): only `FileNotFoundError` is caught,
yielding the empty dataset. -/
def load_data : SourceState → LoadOutcome
  | SourceState.missing => LoadOutcome.sourceMissing []
  | SourceState.unparseable => LoadOutcome.exception "JSONDecodeError"
  | SourceState.parsed raw =>
    match load_data_convert raw with
    | Except.ok d => LoadOutcome.loaded d
    | Except.error e => LoadOutcome.exception e

/-- `load_monthly_data` (lines 183-190): no format conversion. -/
def load_monthly_data : SourceState → LoadOutcome
  | SourceState.missing => LoadOutcome.sourceMissing []
  | SourceState.unparseable => LoadOutcome.exception "JSONDecodeError"
  | SourceState.parsed raw => LoadOutcome.loaded raw

/-- True iff a raw per-user value is a list (legacy shape). -/
def value_is_list : RawUserValue → Bool
  | RawUserValue.legacy _ => true
  | RawUserValue.wrapped _ => false

/-- The probe of line 144 succeeds and reports the legacy shape: the
first user of the first period maps to a list. -/
def first_user_is_list (raw : RawData) : Bool :=
  match raw with
  | (_, (_, v) :: _) :: _ => value_is_list v
  | _ => false

/-- Every user value in every period is a list (uniform legacy shape). -/
def all_legacy (raw : RawData) : Bool :=
  raw.all (fun de => de.2.all (fun ue => value_is_list ue.2))

/-- Shapes on which the conversion step of `load_data` completes: an
empty dataset, a first user in current shape (pass-through), or a
uniformly legacy dataset with at least one user in the first period. -/
def load_shape_ok (raw : RawData) : Bool :=
  match raw with
  | [] => true
  | (_, []) :: _ => false
  | (_, (_, RawUserValue.wrapped _) :: _) :: _ => true
  | (_, (_, RawUserValue.legacy _) :: _) :: _ => all_legacy raw

/-- What conversion does to one user value of a legacy dataset. -/
def convert_legacy_value : RawUserValue → RawUserValue
  | RawUserValue.legacy ps => RawUserValue.wrapped ⟨ps, summaryOf ps⟩
  | RawUserValue.wrapped ud => RawUserValue.wrapped ud

/-- Pointwise description of a successful legacy conversion. -/
def mapConvert (raw : RawData) : RawData :=
  raw.map (fun de => (de.1, de.2.map (fun ue => (ue.1, convert_legacy_value ue.2))))

/-- A record with every field absent. -/
def blank_process_record : ProcessRecord :=
  ⟨none, none, none, none, none, none, none⟩

/-! ## Definitions: display-name resolution and tally formatting (lines 14-57) -/

/-- `USER_ID_MAP` (lines 15-41). -/
def USER_ID_MAP : List (String × String) := [
  ("514833", "Manish Bisht"),
  ("591950", "Vikram Thakur"),
  ("905072", "Vikash Singh"),
  ("1081989", "Sushma Negi"),
  ("1187116", "Sanchit Deshwal"),
  ("611429", "Deepak Chawla"),
  ("905037", "Diwakar Lohia"),
  ("1045453", "Tarun Chauniyal"),
  ("842566", "Ashfaq Alam"),
  ("710200", "Shivam Kumar"),
  ("358250", "Sonu Kumar"),
  ("605016", "Mohammad Sameen"),
  ("600438", "Pankaj Katyura"),
  ("699728", "Soral Singh"),
  ("397646", "Kuldeep Adhikari"),
  ("1484439", "Giridhar Chennuru"),
  ("1298474", "Yogesh Chaudhary"),
  ("858351", "Kajal Kumari"),
  ("699694", "Ranjan Sahu"),
  ("158897", "Mohammad Shebaz"),
  ("458444", "Farjul Islam"),
  ("465826", "Manish Kumar"),
  ("1013467", "Mohammad Aaqib"),
  ("327540", "Mohammed Shahrukh"),
  ("1009828", "Payal Negi")]

/-- Look a user id up in `USER_ID_MAP` (Python `dict.get(k)`). -/
def lookup_user_name (user_id : String) : Option String :=
  (USER_ID_MAP.find? (fun kv => kv.1 = user_id)).map Prod.snd

/-- `get_user_display_name` (lines 43-45): mapped name, or the raw id. -/
def get_user_display_name (user_id : String) : String :=
  (lookup_user_name user_id).getD user_id

/-- Sort key of `format_verification_types` (line 53): Python key
`(-count, code)`, i.e. count descending then code ascending. -/
def fmt_lt (a b : String × Int) : Bool :=
  decide (b.2 < a.2) || (decide (a.2 = b.2) && pyStrLt a.1 b.1)

/-- The ordered pair sequence built inside `format_verification_types`
(line 53, the local `sorted_verifications`). -/
def sorted_verifications (t : Tally) : Tally := pySorted fmt_lt t

/-- `format_verification_types` (lines 47-57). -/
def format_verification_types (t : Tally) : String :=
  if t = [] then "None"
  else String.intercalate ", "
    ((sorted_verifications t).map (fun kv => kv.1 ++ ":" ++ toString kv.2))

/-! ## Definitions: Excel export (lines 59-111) -/

/-- `FIXED_VERIFICATION_ORDER` (lines 61-65). -/
def FIXED_VERIFICATION_ORDER : List String := [
  "AV", "PANV", "DLV", "VIDV", "CCRV", "EDUV", "EMPV", "LAV", "PAV",
  "LAPV", "PAPV", "LADV", "PADV", "PRC", "PCC", "PVLF", "CC", "GDC",
  "BAV", "EREF", "EHC", "OFACC", "DRG", "PPV", "CVV", "XAV", "SMC"]

/-- The verification-type codes occurring in the process lists of the
users (lines 70-72), before the set is sorted. -/
def collect_verification_keys (pd : PeriodData) : List String :=
  pd.foldr
    (fun ue acc =>
      ue.2.processes.foldr
        (fun p acc2 => ((p.verification_types_count).getD []).map Prod.fst ++ acc2) acc)
    []

/-- `get_all_verification_types` (lines 67-73): `sorted(set(...))` over
the codes observed in process records. -/
def get_all_verification_types (pd : PeriodData) : List String :=
  sortedSet (collect_verification_keys pd)

/-- Line 82: observed codes outside the fixed list, sorted. -/
def remaining_verification_types (pd : PeriodData) : List String :=
  pySorted pyStrLt
    ((get_all_verification_types pd).filter
      (fun v => decide (v ∉ FIXED_VERIFICATION_ORDER)))

/-- Line 83: the verification-type column order of the export. -/
def ordered_verification_types (pd : PeriodData) : List String :=
  FIXED_VERIFICATION_ORDER ++ remaining_verification_types pd

/-- A spreadsheet cell. -/
inductive CellValue where
  | str (s : String)
  | int (n : Int)
  | na
deriving DecidableEq

/-- A row under construction: a Python dict column-name -> cell. -/
abbrev Row := List (String × CellValue)

/-- One export row (lines 92-103): `Date`, `User`, then one entry per
ordered verification type read from the summary tally of the user. -/
def excel_row (selected_date : String) (ordered : List String)
    (user_id : String) (ud : UserData) : Row :=
  ordered.foldl
    (fun row v =>
      dictSet row v (CellValue.int
        (if dictGet ud.summary.verification_types_count v 0 ≠ 0 then
          dictGet ud.summary.verification_types_count v 0
        else 0)))
    (dictSet (dictSet [] "Date" (CellValue.str selected_date))
      "User" (CellValue.str (get_user_display_name user_id)))

/-- Column discovery of `pd.DataFrame(list_of_dicts)`: keys in order of
first appearance across the rows. -/
def df_columns (rows : List Row) : List String :=
  rows.foldl
    (fun acc row =>
      row.foldl (fun acc2 kv => if kv.1 ∈ acc2 then acc2 else acc2 ++ [kv.1]) acc)
    []

/-- The exported table: column names plus cell rows aligned to them. -/
structure ExcelTable where
  columns : List String
  rows : List (List CellValue)
deriving DecidableEq

/-- Cell lookup during `reindex`: missing columns become NaN. -/
def row_lookup (row : Row) (c : String) : CellValue := dictGet row c CellValue.na

/-- `create_excel_dataframe` (lines 75-111): build one row per user,
then reindex to `Date, User` plus the ordered verification types, with
any accidental extra columns preserved at the end. -/
def create_excel_dataframe (pd : PeriodData) (selected_date : String) : ExcelTable :=
  let ordered := ordered_verification_types pd
  let excel_data := pd.map (fun ue => excel_row selected_date ordered ue.1 ue.2)
  let desired := "Date" :: "User" :: ordered
  let extra := (df_columns excel_data).filter (fun c => decide (c ∉ desired))
  let cols := desired ++ extra
  ⟨cols, excel_data.map (fun row => cols.map (fun c => row_lookup row c))⟩

/-! ## Definitions: aggregation and display (lines 280-495) -/

/-- The attachment test used in `calculate_excel_stats` (lines 287-293)
and again in `display_stats_content` (lines 359-365): a dict with a
truthy `s3_url`, or a non-empty string; an absent `excel_document` is
read as the empty string. -/
def has_excel_attachment (p : ProcessRecord) : Bool :=
  match (p.excel_document).getD (ExcelDoc.str "") with
  | ExcelDoc.dict (some u) => u != ""
  | ExcelDoc.dict none => false
  | ExcelDoc.str s => s != ""
  | ExcelDoc.null => false

/-- `calculate_excel_stats` (lines 280-299): period-wide count of
processes with an Excel attachment and of their individuals. -/
def calculate_excel_stats (pd : PeriodData) : Int × Int :=
  pd.foldl
    (fun acc ue =>
      ue.2.processes.foldl
        (fun acc2 p =>
          if has_excel_attachment p then
            (acc2.1 + 1, acc2.2 + (p.total_individuals).getD 0)
          else acc2)
        acc)
    (0, 0)

/-- Line 309: period-wide sum of failed onboardings. -/
def overall_failed (pd : PeriodData) : Int :=
  (pd.map (fun ue => ue.2.summary.failed_onboardings)).sum

/-- Line 310: the displayed period-wide discarded count — the sum of
`discarded_candidates` plus the period-wide failed total. -/
def overall_discarded (pd : PeriodData) : Int :=
  (pd.map (fun ue => ue.2.summary.discarded_candidates)).sum + overall_failed pd

/-- Line 378: the per-user displayed discarded count. -/
def user_total_discarded (ud : UserData) : Int :=
  ud.summary.discarded_candidates + ud.summary.failed_onboardings

/-- The five per-user columns split by attachment channel. -/
structure ExcelSplit where
  processes : Int
  individuals : Int
  successful : Int
  discarded : Int
  verifications : Int
deriving DecidableEq

/-- Lines 352-372: per-user "with Excel" statistics, folded over the
process list of the user. -/
def user_excel_stats (ps : List ProcessRecord) : ExcelSplit :=
  ps.foldl
    (fun acc p =>
      if has_excel_attachment p then
        ⟨acc.processes + 1,
         acc.individuals + (p.total_individuals).getD 0,
         acc.successful + (p.successful_onboardings).getD 0,
         acc.discarded + ((p.discarded_candidates).getD 0 + (p.failed_onboardings).getD 0),
         acc.verifications + (p.verifications_initiated).getD 0⟩
      else acc)
    ⟨0, 0, 0, 0, 0⟩

/-- Lines 374-379: the per-user totals as read from the summary. -/
def user_totals (ud : UserData) : ExcelSplit :=
  ⟨(ud.processes.length : Int),
   ud.summary.total_individuals,
   ud.summary.successful_onboardings,
   ud.summary.discarded_candidates + ud.summary.failed_onboardings,
   ud.summary.verifications_initiated⟩

/-- Lines 381-385: "documents only" = totals minus "with Excel",
field by field, with no clamping. -/
def user_documents_only (ud : UserData) : ExcelSplit :=
  let tot := user_totals ud
  let we := user_excel_stats ud.processes
  ⟨tot.processes - we.processes,
   tot.individuals - we.individuals,
   tot.successful - we.successful,
   tot.discarded - we.discarded,
   tot.verifications - we.verifications⟩

/-- Sort key of line 417: users by `total_individuals` descending
(`reverse=True` on a stable sort). -/
def user_rank_lt (a b : String × UserData) : Bool :=
  decide (b.2.summary.total_individuals < a.2.summary.total_individuals)

/-- Line 417: `sorted_users`. -/
def sorted_users (pd : PeriodData) : PeriodData := pySorted user_rank_lt pd

/-- Sort key of lines 459 and 481: count descending only (`-x[1]`). -/
def count_lt (a b : String × Int) : Bool := decide (b.2 < a.2)

/-- Lines 450-455: the period-wide verification tally merged over the
summaries of the ranked users. -/
def total_verification_types (pd : PeriodData) : Tally :=
  (sorted_users pd).foldl
    (fun acc ue => mergeTallyInto acc ue.2.summary.verification_types_count) []

/-- Line 459: the pair order of the period-total badge row. -/
def sorted_total_verifications (pd : PeriodData) : Tally :=
  pySorted count_lt (total_verification_types pd)

/-- Line 481: the pair order of the badge row of one user. -/
def user_badge_row (ud : UserData) : Tally :=
  pySorted count_lt ud.summary.verification_types_count

/-! ## Definitions: claim-side orderings and sample data -/

/-- The ordering the spec claims for every tally rendering: count
descending, ties broken by code ascending. -/
def countDescCodeAsc (x y : String × Int) : Prop :=
  y.2 < x.2 ∨ (x.2 = y.2 ∧ pyStrLt y.1 x.1 = false)

/-- Count-descending order (what the badge rows actually guarantee). -/
def countDesc (x y : String × Int) : Prop := y.2 ≤ x.2

/-- The worked legacy scenario of the spec, as raw daily input. -/
def sampleLegacyRaw : RawData :=
  [("01/01/2024",
    [("u1", RawUserValue.legacy
      [⟨some 10, some 7, some 1, some 2, none, some [("AV", 3), ("PANV", 1)], none⟩])])]

/-- A small well-shaped legacy dataset with two users. -/
def sampleWellShapedRaw : RawData :=
  [("02/01/2024",
    [("514833", RawUserValue.legacy
      [⟨some 4, some 2, none, some 1, none, some [("AV", 2)], none⟩]),
     ("591950", RawUserValue.legacy [])])]

/-- A one-user period whose process and summary tallies agree and
mention a code outside the fixed list. -/
def samplePeriodData : PeriodData :=
  [("514833",
    ⟨[⟨some 3, some 2, some 1, some 0, some 4, some [("AV", 2), ("ZXV", 1)], none⟩],
     ⟨3, 2, 1, 0, 4, [("AV", 2), ("ZXV", 1)]⟩⟩)]

/-! ## Theorems: string comparison -/

theorem listCharLt_irrefl (l : List Char) : listCharLt l l = false := by
  induction l with
  | nil => rfl
  | cons c cs ih => simp [listCharLt, ih]

theorem listCharLt_trans {a b c : List Char} (h1 : listCharLt a b = true)
    (h2 : listCharLt b c = true) : listCharLt a c = true := by
  induction a generalizing b c with
  | nil =>
    cases c with
    | nil => cases b <;> simp [listCharLt] at h1 h2
    | cons e es => rfl
  | cons x xs ih =>
    cases b with
    | nil => simp [listCharLt] at h1
    | cons y ys =>
      cases c with
      | nil => simp [listCharLt] at h2
      | cons z zs =>
        simp only [listCharLt] at h1 h2
        simp only [listCharLt]
        by_cases hxy : x = y
        · subst hxy
          rw [if_pos rfl] at h1
          by_cases hxz : x = z
          · subst hxz
            rw [if_pos rfl] at h2
            rw [if_pos rfl]
            exact ih h1 h2
          · rw [if_neg hxz] at h2
            rw [if_neg hxz]
            exact h2
        · rw [if_neg hxy] at h1
          have hx : x.toNat < y.toNat := of_decide_eq_true h1
          by_cases hyz : y = z
          · subst hyz
            rw [if_neg hxy]
            exact decide_eq_true hx
          · rw [if_neg hyz] at h2
            have hy : y.toNat < z.toNat := of_decide_eq_true h2
            have hxz : ¬ x = z := by
              intro e
              subst e
              omega
            rw [if_neg hxz]
            exact decide_eq_true (by omega)

theorem listCharLt_connex {a b : List Char} (h1 : listCharLt a b = false)
    (h2 : listCharLt b a = false) : a = b := by
  induction a generalizing b with
  | nil =>
    cases b with
    | nil => rfl
    | cons y ys => simp [listCharLt] at h1
  | cons x xs ih =>
    cases b with
    | nil => simp [listCharLt] at h2
    | cons y ys =>
      simp only [listCharLt] at h1 h2
      by_cases hxy : x = y
      · subst hxy
        simp only [if_pos rfl] at h1 h2
        rw [ih h1 h2]
      · simp only [if_neg hxy] at h1
        have hyx : y ≠ x := fun e => hxy e.symm
        simp only [if_neg hyx] at h2
        have hx : ¬ x.toNat < y.toNat := of_decide_eq_false h1
        have hy : ¬ y.toNat < x.toNat := of_decide_eq_false h2
        have h3 : x.toNat = y.toNat := by omega
        exact absurd (Char.ext (UInt32.ext h3)) hxy

theorem listCharLt_asymm {a b : List Char} (h : listCharLt a b = true) :
    listCharLt b a = false := by
  cases h2 : listCharLt b a with
  | false => rfl
  | true => exact absurd (listCharLt_trans h h2) (by simp [listCharLt_irrefl])

theorem pyStrLt_trans {a b c : String} (h1 : pyStrLt a b = true)
    (h2 : pyStrLt b c = true) : pyStrLt a c = true :=
  listCharLt_trans h1 h2

theorem pyStrLt_connex {a b : String} (h1 : pyStrLt a b = false)
    (h2 : pyStrLt b a = false) : a = b := by
  cases a with
  | mk da =>
    cases b with
    | mk db => exact congrArg String.mk (listCharLt_connex h1 h2)

theorem pyStrLt_asymm {a b : String} (h : pyStrLt a b = true) :
    pyStrLt b a = false :=
  listCharLt_asymm h

theorem pyStrLt_irrefl (a : String) : pyStrLt a a = false :=
  listCharLt_irrefl a.data

theorem pyStrLt_not_lt_trans {a b c : String} (h1 : pyStrLt b a = false)
    (h2 : pyStrLt c b = false) : pyStrLt c a = false := by
  cases hca : pyStrLt c a with
  | false => rfl
  | true =>
    cases hbc : pyStrLt b c with
    | false =>
      have : b = c := pyStrLt_connex hbc h2
      subst this
      exact absurd hca (by simp [h1])
    | true =>
      have : pyStrLt b a = true := pyStrLt_trans hbc hca
      exact absurd this (by simp [h1])

/-! ## Theorems: dict operations -/

theorem dictGet_dictSet {β : Type} (t : List (String × β)) (k k' : String) (v d : β) :
    dictGet (dictSet t k v) k' d = if k = k' then v else dictGet t k' d := by
  induction t with
  | nil => simp [dictSet, dictGet]
  | cons kv rest ih =>
    simp only [dictSet]
    by_cases h : kv.1 = k
    · simp only [if_pos h, dictGet]
      by_cases h2 : k = k'
      · simp [h2]
      · have h3 : kv.1 ≠ k' := by rw [h]; exact h2
        simp [h2, h3, dictGet]
    · simp only [if_neg h, dictGet, ih]
      by_cases h2 : kv.1 = k'
      · have h3 : k ≠ k' := fun e => h (by rw [h2, e])
        simp [h2, h3]
      · simp [h2]

theorem dictGet_not_mem {β : Type} (t : List (String × β)) (k : String) (d : β)
    (h : k ∉ t.map Prod.fst) : dictGet t k d = d := by
  induction t with
  | nil => rfl
  | cons kv rest ih =>
    simp only [List.map_cons, List.mem_cons] at h
    push_neg at h
    have h1 : kv.1 ≠ k := fun e => h.1 e.symm
    simp [dictGet, h1, ih h.2]

theorem mem_keys_dictSet {β : Type} (t : List (String × β)) (k : String) (v : β) (x : String) :
    x ∈ (dictSet t k v).map Prod.fst ↔ x = k ∨ x ∈ t.map Prod.fst := by
  induction t with
  | nil => simp [dictSet]
  | cons kv rest ih =>
    by_cases h : kv.1 = k
    · simp [dictSet, h] <;> tauto
    · simp [dictSet, h, ih] <;> tauto

theorem dictSet_append {β : Type} (t : List (String × β)) (k : String) (v : β)
    (h : k ∉ t.map Prod.fst) : dictSet t k v = t ++ [(k, v)] := by
  induction t with
  | nil => rfl
  | cons kv rest ih =>
    simp only [List.map_cons, List.mem_cons] at h
    push_neg at h
    have h1 : kv.1 ≠ k := fun e => h.1 e.symm
    simp [dictSet, h1, ih h.2]

theorem dictGet_map_self {β : Type} (f : String → β) (l : List String) (c : String) (d : β)
    (hc : c ∈ l) (hnd : l.Nodup) :
    dictGet (l.map (fun v => (v, f v))) c d = f c := by
  induction l with
  | nil => cases hc
  | cons a l ih =>
    rcases List.nodup_cons.mp hnd with ⟨_, hl⟩
    by_cases h : a = c
    · subst h
      simp [dictGet]
    · rcases List.mem_cons.mp hc with e | hc'
      · exact absurd e.symm h
      · simp [dictGet, h, ih hc' hl]

/-! ## Theorems: the stable sort -/

theorem mem_pyInsert {α : Type} (lt : α → α → Bool) (x a : α) (l : List α) :
    x ∈ pyInsert lt a l ↔ x = a ∨ x ∈ l := by
  induction l with
  | nil => simp [pyInsert]
  | cons b bs ih =>
    cases h : lt a b with
    | true => simp [pyInsert, h] <;> tauto
    | false => simp [pyInsert, h, ih] <;> tauto

theorem pairwise_pyInsert {α : Type} (lt : α → α → Bool) (le : α → α → Prop)
    (H1 : ∀ a b, lt a b = true → le a b) (H2 : ∀ a b, lt a b = false → le b a)
    (Ht : ∀ a b c, le a b → le b c → le a c)
    (a : α) (l : List α) (h : l.Pairwise le) : (pyInsert lt a l).Pairwise le := by
  induction l with
  | nil => simp [pyInsert]
  | cons b bs ih =>
    rcases List.pairwise_cons.mp h with ⟨hb, hbs⟩
    cases hlt : lt a b with
    | true =>
      simp only [pyInsert, hlt, if_pos]
      refine List.pairwise_cons.mpr ⟨?_, h⟩
      intro x hx
      rcases List.mem_cons.mp hx with e | hx'
      · subst e; exact H1 a x hlt
      · exact Ht a b x (H1 a b hlt) (hb x hx')
    | false =>
      simp only [pyInsert, hlt, Bool.false_eq_true, if_false]
      refine List.pairwise_cons.mpr ⟨?_, ih hbs⟩
      intro x hx
      rcases (mem_pyInsert lt x a bs).mp hx with e | hx'
      · subst e; exact H2 x b hlt
      · exact hb x hx'

theorem pairwise_pySorted_aux {α : Type} (lt : α → α → Bool) (le : α → α → Prop)
    (H1 : ∀ a b, lt a b = true → le a b) (H2 : ∀ a b, lt a b = false → le b a)
    (Ht : ∀ a b c, le a b → le b c → le a c)
    (l acc : List α) (hacc : acc.Pairwise le) :
    (l.foldl (fun acc a => pyInsert lt a acc) acc).Pairwise le := by
  induction l generalizing acc with
  | nil => simpa using hacc
  | cons a l ih =>
    simp only [List.foldl_cons]
    exact ih _ (pairwise_pyInsert lt le H1 H2 Ht a acc hacc)

theorem pairwise_pySorted {α : Type} (lt : α → α → Bool) (le : α → α → Prop)
    (H1 : ∀ a b, lt a b = true → le a b) (H2 : ∀ a b, lt a b = false → le b a)
    (Ht : ∀ a b c, le a b → le b c → le a c)
    (l : List α) : (pySorted lt l).Pairwise le :=
  pairwise_pySorted_aux lt le H1 H2 Ht l [] (List.Pairwise.nil)

theorem mem_pySorted_aux {α : Type} (lt : α → α → Bool) (x : α) (l acc : List α) :
    x ∈ l.foldl (fun acc a => pyInsert lt a acc) acc ↔ x ∈ acc ∨ x ∈ l := by
  induction l generalizing acc with
  | nil => simp
  | cons a l ih =>
    simp only [List.foldl_cons, ih, mem_pyInsert, List.mem_cons]
    tauto

theorem mem_pySorted {α : Type} (lt : α → α → Bool) (x : α) (l : List α) :
    x ∈ pySorted lt l ↔ x ∈ l := by
  unfold pySorted
  rw [mem_pySorted_aux]
  simp

theorem nodup_pyInsert {α : Type} (lt : α → α → Bool) (a : α) (l : List α)
    (ha : a ∉ l) (h : l.Nodup) : (pyInsert lt a l).Nodup := by
  induction l with
  | nil => simp [pyInsert]
  | cons b bs ih =>
    cases hlt : lt a b with
    | true =>
      simp only [pyInsert, hlt, if_pos]
      exact List.nodup_cons.mpr ⟨ha, h⟩
    | false =>
      simp only [pyInsert, hlt, Bool.false_eq_true, if_false]
      have ha' : a ∉ bs := fun hm => ha (List.mem_cons_of_mem _ hm)
      have hab : a ≠ b := fun e => ha (e ▸ List.mem_cons_self a bs)
      rcases List.nodup_cons.mp h with ⟨hb, hbs⟩
      refine List.nodup_cons.mpr ⟨?_, ih ha' hbs⟩
      intro hmem
      rcases (mem_pyInsert lt b a bs).mp hmem with e | hm
      · exact hab e.symm
      · exact hb hm

theorem nodup_pySorted_aux {α : Type} (lt : α → α → Bool) (l acc : List α)
    (hacc : acc.Nodup) (hl : l.Nodup) (hd : ∀ x ∈ l, x ∉ acc) :
    (l.foldl (fun acc a => pyInsert lt a acc) acc).Nodup := by
  induction l generalizing acc with
  | nil => simpa using hacc
  | cons a l ih =>
    simp only [List.foldl_cons]
    rcases List.nodup_cons.mp hl with ⟨hal, hl'⟩
    refine ih _ (nodup_pyInsert lt a acc (hd a (List.mem_cons_self a l)) hacc) hl' ?_
    intro x hx hxmem
    rcases (mem_pyInsert lt x a acc).mp hxmem with e | hxacc
    · subst e; exact hal hx
    · exact hd x (List.mem_cons_of_mem _ hx) hxacc

theorem nodup_pySorted {α : Type} (lt : α → α → Bool) (l : List α) (hl : l.Nodup) :
    (pySorted lt l).Nodup :=
  nodup_pySorted_aux lt l [] List.nodup_nil hl (by simp)

/-! ## Theorems: sorted deduplicated string lists -/

theorem mem_insertSortedDedup (x a : String) (l : List String) :
    x ∈ insertSortedDedup a l ↔ x = a ∨ x ∈ l := by
  induction l with
  | nil => simp [insertSortedDedup]
  | cons b bs ih =>
    by_cases he : a = b
    · subst he
      simp [insertSortedDedup] <;> tauto
    · cases hlt : pyStrLt a b with
      | true => simp [insertSortedDedup, he, hlt]
      | false => simp [insertSortedDedup, he, hlt, ih] <;> tauto

theorem pairwise_insertSortedDedup (a : String) (l : List String)
    (h : l.Pairwise (fun x y => pyStrLt x y = true)) :
    (insertSortedDedup a l).Pairwise (fun x y => pyStrLt x y = true) := by
  induction l with
  | nil => simp [insertSortedDedup]
  | cons b bs ih =>
    rcases List.pairwise_cons.mp h with ⟨hb, hbs⟩
    by_cases he : a = b
    · simpa [insertSortedDedup, he] using h
    · cases hlt : pyStrLt a b with
      | true =>
        simp only [insertSortedDedup, if_neg he, hlt, if_pos]
        refine List.pairwise_cons.mpr ⟨?_, h⟩
        intro x hx
        rcases List.mem_cons.mp hx with e | hx'
        · subst e; exact hlt
        · exact pyStrLt_trans hlt (hb x hx')
      | false =>
        simp only [insertSortedDedup, if_neg he, hlt, Bool.false_eq_true, if_false]
        have hba : pyStrLt b a = true := by
          cases h2 : pyStrLt b a with
          | true => rfl
          | false => exact absurd (pyStrLt_connex hlt h2) he
        refine List.pairwise_cons.mpr ⟨?_, ih hbs⟩
        intro x hx
        rcases (mem_insertSortedDedup x a bs).mp hx with e | hx'
        · subst e; exact hba
        · exact hb x hx'

theorem pairwise_sortedSet (l : List String) :
    (sortedSet l).Pairwise (fun x y => pyStrLt x y = true) := by
  induction l with
  | nil => simp [sortedSet]
  | cons a l ih => exact pairwise_insertSortedDedup a (sortedSet l) ih

theorem mem_sortedSet (x : String) (l : List String) : x ∈ sortedSet l ↔ x ∈ l := by
  induction l with
  | nil => simp [sortedSet]
  | cons a l ih =>
    simp only [sortedSet, List.foldr_cons]
    rw [mem_insertSortedDedup]
    simp only [List.mem_cons]
    rw [show List.foldr insertSortedDedup [] l = sortedSet l from rfl]
    tauto

theorem nodup_sortedSet (l : List String) : (sortedSet l).Nodup := by
  have h := pairwise_sortedSet l
  refine h.imp ?_
  intro a b hx e
  subst e
  rw [pyStrLt_irrefl] at hx
  exact Bool.noConfusion hx

/-! ## Theorems: tally merging -/

theorem dictGet_mergeTallyInto (t acc : Tally)
    (hk : (t.map Prod.fst).Nodup) (k : String) :
    dictGet (mergeTallyInto acc t) k 0 = dictGet acc k 0 + dictGet t k 0 := by
  induction t generalizing acc with
  | nil => simp [mergeTallyInto, dictGet]
  | cons kv rest ih =>
    simp only [List.map_cons] at hk
    rcases List.nodup_cons.mp hk with ⟨hknot, hrest⟩
    have step : mergeTallyInto acc (kv :: rest) =
        mergeTallyInto (dictSet acc kv.1 (dictGet acc kv.1 0 + kv.2)) rest := rfl
    rw [step, ih _ hrest, dictGet_dictSet]
    by_cases h : kv.1 = k
    · have hnr : dictGet rest k 0 = 0 := by
        refine dictGet_not_mem _ _ _ ?_
        rw [← h]
        exact hknot
      simp [dictGet, h, hnr]
    · simp [dictGet, h]

theorem dictGet_userVerificationTypes_aux (ps : List ProcessRecord) (acc : Tally)
    (h : ∀ p ∈ ps, (((p.verification_types_count).getD []).map Prod.fst).Nodup) (k : String) :
    dictGet (ps.foldl (fun acc p => mergeTallyInto acc ((p.verification_types_count).getD [])) acc) k 0 =
      dictGet acc k 0 +
        (ps.map (fun p => dictGet ((p.verification_types_count).getD []) k 0)).sum := by
  induction ps generalizing acc with
  | nil => simp
  | cons p ps ih =>
    simp only [List.foldl_cons, List.map_cons, List.sum_cons]
    rw [ih _ (fun q hq => h q (List.mem_cons_of_mem _ hq))]
    rw [dictGet_mergeTallyInto _ _ (h p (List.mem_cons_self p ps))]
    ring

theorem dictGet_userVerificationTypes (ps : List ProcessRecord)
    (h : ∀ p ∈ ps, (((p.verification_types_count).getD []).map Prod.fst).Nodup) (k : String) :
    dictGet (userVerificationTypes ps) k 0 =
      (ps.map (fun p => dictGet ((p.verification_types_count).getD []) k 0)).sum := by
  unfold userVerificationTypes
  rw [dictGet_userVerificationTypes_aux ps [] h k]
  simp [dictGet]

/-! ## Theorems: legacy conversion -/

theorem convertUsers_ok (us : List (String × RawUserValue))
    (h : us.all (fun ue => value_is_list ue.2) = true) :
    convertUsers us = Except.ok (us.map (fun ue => (ue.1, convert_legacy_value ue.2))) := by
  induction us with
  | nil => rfl
  | cons ue rest ih =>
    simp only [List.all_cons, Bool.and_eq_true] at h
    obtain ⟨h1, h2⟩ := h
    obtain ⟨u, v⟩ := ue
    cases v with
    | legacy ps =>
      simp only [convertUsers, ih h2, List.map_cons]
      rfl
    | wrapped ud => simp [value_is_list] at h1

theorem convertData_ok (raw : RawData) (h : all_legacy raw = true) :
    convertData raw = Except.ok (mapConvert raw) := by
  induction raw with
  | nil => rfl
  | cons de rest ih =>
    simp only [all_legacy, List.all_cons, Bool.and_eq_true] at h
    obtain ⟨h1, h2⟩ := h
    obtain ⟨d, us⟩ := de
    simp only [convertData, convertUsers_ok us h1, ih h2, mapConvert, List.map_cons]

theorem load_data_convert_legacy (raw : RawData)
    (hfirst : first_user_is_list raw = true) (hall : all_legacy raw = true) :
    load_data_convert raw = Except.ok (mapConvert raw) := by
  cases raw with
  | nil => simp [first_user_is_list] at hfirst
  | cons de rest =>
    obtain ⟨d, us⟩ := de
    cases us with
    | nil => simp [first_user_is_list] at hfirst
    | cons ue us' =>
      obtain ⟨u, v⟩ := ue
      cases v with
      | wrapped ud => simp [first_user_is_list, value_is_list] at hfirst
      | legacy ps =>
        have : load_data_convert ((d, (u, RawUserValue.legacy ps) :: us') :: rest) =
            convertData ((d, (u, RawUserValue.legacy ps) :: us') :: rest) := rfl
        rw [this, convertData_ok _ hall]

/-! ## Theorems: export table structure -/

theorem ite_count_eq (c : Int) : (if c ≠ 0 then c else 0) = c := by
  by_cases h : c = 0 <;> simp [h]

theorem foldl_dictSet_fresh {β : Type} (f : String → β) (l : List String)
    (row : List (String × β)) :
    l.Nodup → (∀ v ∈ l, v ∉ row.map Prod.fst) →
    l.foldl (fun r v => dictSet r v (f v)) row = row ++ l.map (fun v => (v, f v)) := by
  induction l generalizing row with
  | nil =>
    intro _ _
    simp
  | cons a l ih =>
    intro hnd hfresh
    simp only [List.foldl_cons, List.map_cons]
    rcases List.nodup_cons.mp hnd with ⟨hal, hl⟩
    rw [dictSet_append _ _ _ (hfresh a (List.mem_cons_self a l))]
    have hfresh2 : ∀ v ∈ l, v ∉ (row ++ [(a, f a)]).map Prod.fst := by
      intro v hv hvmem
      rw [List.map_append] at hvmem
      rcases List.mem_append.mp hvmem with hmem | hmem
      · exact hfresh v (List.mem_cons_of_mem _ hv) hmem
      · simp at hmem
        exact hal (hmem ▸ hv)
    rw [ih _ hl hfresh2]
    simp

theorem keys_foldl_dictSet {β : Type} (f : String → β) (l : List String)
    (row : List (String × β)) (x : String)
    (h : x ∈ (l.foldl (fun r v => dictSet r v (f v)) row).map Prod.fst) :
    x ∈ row.map Prod.fst ∨ x ∈ l := by
  induction l generalizing row with
  | nil =>
    simp only [List.foldl_nil] at h
    exact Or.inl h
  | cons a l ih =>
    simp only [List.foldl_cons] at h
    rcases ih _ h with h2 | h2
    · rcases (mem_keys_dictSet _ _ _ _).mp h2 with e | h3
      · subst e
        right
        simp
      · exact Or.inl h3
    · right
      exact List.mem_cons_of_mem _ h2

theorem keys_excel_row (sel : String) (ordered : List String) (uid : String) (ud : UserData)
    (x : String) (h : x ∈ (excel_row sel ordered uid ud).map Prod.fst) :
    x = "Date" ∨ x = "User" ∨ x ∈ ordered := by
  unfold excel_row at h
  rcases keys_foldl_dictSet
      (fun v => CellValue.int
        (if dictGet ud.summary.verification_types_count v 0 ≠ 0 then
          dictGet ud.summary.verification_types_count v 0 else 0))
      ordered _ x h with h2 | h2
  · have hrow : (dictSet (dictSet [] "Date" (CellValue.str sel)) "User"
        (CellValue.str (get_user_display_name uid))).map Prod.fst = ["Date", "User"] := rfl
    rw [hrow] at h2
    simp at h2
    tauto
  · tauto

theorem excel_row_eq (sel : String) (ordered : List String) (uid : String) (ud : UserData)
    (hnd : ordered.Nodup) (hD : "Date" ∉ ordered) (hU : "User" ∉ ordered) :
    excel_row sel ordered uid ud =
      ("Date", CellValue.str sel) ::
        ("User", CellValue.str (get_user_display_name uid)) ::
        ordered.map (fun v =>
          (v, CellValue.int (dictGet ud.summary.verification_types_count v 0))) := by
  unfold excel_row
  have hrow : dictSet (dictSet [] "Date" (CellValue.str sel)) "User"
      (CellValue.str (get_user_display_name uid)) =
      [("Date", CellValue.str sel), ("User", CellValue.str (get_user_display_name uid))] := rfl
  rw [hrow]
  have hfresh : ∀ v ∈ ordered,
      v ∉ ([("Date", CellValue.str sel),
            ("User", CellValue.str (get_user_display_name uid))] : Row).map Prod.fst := by
    intro v hv hvmem
    simp at hvmem
    rcases hvmem with e | e
    · exact hD (e ▸ hv)
    · exact hU (e ▸ hv)
  rw [foldl_dictSet_fresh
      (fun v => CellValue.int
        (if dictGet ud.summary.verification_types_count v 0 ≠ 0 then
          dictGet ud.summary.verification_types_count v 0 else 0))
      ordered _ hnd hfresh]
  have hmap : ordered.map (fun v =>
      (v, CellValue.int
        (if dictGet ud.summary.verification_types_count v 0 ≠ 0 then
          dictGet ud.summary.verification_types_count v 0 else 0))) =
      ordered.map (fun v =>
        (v, CellValue.int (dictGet ud.summary.verification_types_count v 0))) := by
    refine List.map_congr_left ?_
    intro v _
    rw [ite_count_eq]
  rw [hmap]
  simp

theorem mem_df_columns_inner (row : Row) (acc : List String) (x : String)
    (h : x ∈ row.foldl (fun acc2 kv => if kv.1 ∈ acc2 then acc2 else acc2 ++ [kv.1]) acc) :
    x ∈ acc ∨ x ∈ row.map Prod.fst := by
  induction row generalizing acc with
  | nil =>
    simp only [List.foldl_nil] at h
    exact Or.inl h
  | cons kv rest ih =>
    simp only [List.foldl_cons] at h
    rcases ih _ h with h2 | h2
    · by_cases hc : kv.1 ∈ acc
      · rw [if_pos hc] at h2
        exact Or.inl h2
      · rw [if_neg hc] at h2
        rcases List.mem_append.mp h2 with h3 | h3
        · exact Or.inl h3
        · simp at h3
          subst h3
          right
          simp
    · right
      simp [h2]

theorem mem_df_columns (rows : List Row) (x : String) (acc : List String)
    (h : x ∈ rows.foldl
      (fun acc row =>
        row.foldl (fun acc2 kv => if kv.1 ∈ acc2 then acc2 else acc2 ++ [kv.1]) acc)
      acc) :
    x ∈ acc ∨ ∃ row ∈ rows, x ∈ row.map Prod.fst := by
  induction rows generalizing acc with
  | nil =>
    simp only [List.foldl_nil] at h
    exact Or.inl h
  | cons r rest ih =>
    simp only [List.foldl_cons] at h
    rcases ih _ h with h2 | h2
    · rcases mem_df_columns_inner r acc x h2 with h3 | h3
      · exact Or.inl h3
      · right
        exact ⟨r, List.mem_cons_self r rest, h3⟩
    · right
      obtain ⟨row, hr, hx⟩ := h2
      exact ⟨row, List.mem_cons_of_mem _ hr, hx⟩

theorem create_excel_dataframe_eq (pd : PeriodData) (sel : String) :
    create_excel_dataframe pd sel =
      ⟨("Date" :: "User" :: ordered_verification_types pd) ++
        (df_columns (pd.map (fun ue => excel_row sel (ordered_verification_types pd) ue.1 ue.2))).filter
          (fun c => decide (c ∉ "Date" :: "User" :: ordered_verification_types pd)),
       (pd.map (fun ue => excel_row sel (ordered_verification_types pd) ue.1 ue.2)).map
         (fun row => (("Date" :: "User" :: ordered_verification_types pd) ++
            (df_columns (pd.map (fun ue => excel_row sel (ordered_verification_types pd) ue.1 ue.2))).filter
              (fun c => decide (c ∉ "Date" :: "User" :: ordered_verification_types pd))).map
           (fun c => row_lookup row c))⟩ := rfl

theorem excel_extra_nil (pd : PeriodData) (sel : String) :
    (df_columns (pd.map (fun ue => excel_row sel (ordered_verification_types pd) ue.1 ue.2))).filter
      (fun c => decide (c ∉ "Date" :: "User" :: ordered_verification_types pd)) = [] := by
  rw [List.filter_eq_nil_iff]
  intro c hc
  unfold df_columns at hc
  rcases mem_df_columns _ c [] hc with h | h
  · cases h
  · obtain ⟨row, hrow, hkey⟩ := h
    rcases List.mem_map.mp hrow with ⟨ue, _, hre⟩
    subst hre
    have h3 := keys_excel_row sel _ ue.1 ue.2 c hkey
    simp only [decide_eq_true_eq]
    intro hnot
    rcases h3 with h | h | h
    · exact hnot (by rw [h]; exact List.mem_cons_self _ _)
    · refine hnot ?_
      rw [h]
      exact List.mem_cons_of_mem _ (List.mem_cons_self _ _)
    · exact hnot (List.mem_cons_of_mem _ (List.mem_cons_of_mem _ h))

theorem create_excel_dataframe_columns (pd : PeriodData) (sel : String) :
    (create_excel_dataframe pd sel).columns =
      "Date" :: "User" :: ordered_verification_types pd := by
  rw [create_excel_dataframe_eq]
  simp only [excel_extra_nil]
  simp

/-! ## Theorems: observed verification codes and column order -/

theorem mem_collect_inner (ps : List ProcessRecord) (acc : List String) (x : String) :
    x ∈ ps.foldr
        (fun p acc2 => ((p.verification_types_count).getD []).map Prod.fst ++ acc2) acc ↔
      (∃ p ∈ ps, x ∈ ((p.verification_types_count).getD []).map Prod.fst) ∨ x ∈ acc := by
  induction ps with
  | nil => simp
  | cons p ps ih =>
    simp only [List.foldr_cons, List.mem_append]
    constructor
    · rintro (hx | h2)
      · exact Or.inl ⟨p, List.mem_cons_self p ps, hx⟩
      · rcases ih.mp h2 with ⟨q, hq, hxq⟩ | hacc
        · exact Or.inl ⟨q, List.mem_cons_of_mem _ hq, hxq⟩
        · exact Or.inr hacc
    · rintro (⟨q, hq, hxq⟩ | hacc)
      · rcases List.mem_cons.mp hq with e | hq'
        · subst e
          exact Or.inl hxq
        · exact Or.inr (ih.mpr (Or.inl ⟨q, hq', hxq⟩))
      · exact Or.inr (ih.mpr (Or.inr hacc))

theorem mem_collect (pd : PeriodData) (x : String) :
    x ∈ collect_verification_keys pd ↔
      ∃ ue ∈ pd, ∃ p ∈ ue.2.processes,
        x ∈ ((p.verification_types_count).getD []).map Prod.fst := by
  unfold collect_verification_keys
  induction pd with
  | nil => simp
  | cons ue rest ih =>
    simp only [List.foldr_cons]
    rw [mem_collect_inner]
    constructor
    · rintro (⟨p, hp, hx⟩ | hacc)
      · exact ⟨ue, List.mem_cons_self ue rest, p, hp, hx⟩
      · obtain ⟨ue2, h2, hp⟩ := ih.mp hacc
        exact ⟨ue2, List.mem_cons_of_mem _ h2, hp⟩
    · rintro ⟨ue2, h2, p, hp, hx⟩
      rcases List.mem_cons.mp h2 with e | h2'
      · subst e
        exact Or.inl ⟨p, hp, hx⟩
      · exact Or.inr (ih.mpr ⟨ue2, h2', p, hp, hx⟩)

theorem mem_get_all (pd : PeriodData) (x : String) :
    x ∈ get_all_verification_types pd ↔
      ∃ ue ∈ pd, ∃ p ∈ ue.2.processes,
        x ∈ ((p.verification_types_count).getD []).map Prod.fst := by
  unfold get_all_verification_types
  rw [mem_sortedSet]
  exact mem_collect pd x

theorem fixed_order_nodup : FIXED_VERIFICATION_ORDER.Nodup := by decide

theorem mem_remaining (pd : PeriodData) (c : String) :
    c ∈ remaining_verification_types pd ↔
      c ∈ get_all_verification_types pd ∧ c ∉ FIXED_VERIFICATION_ORDER := by
  unfold remaining_verification_types
  rw [mem_pySorted, List.mem_filter]
  simp

theorem nodup_remaining (pd : PeriodData) : (remaining_verification_types pd).Nodup :=
  nodup_pySorted _ _ ((nodup_sortedSet _).filter _)

theorem pairwise_le_remaining (pd : PeriodData) :
    (remaining_verification_types pd).Pairwise (fun a b => pyStrLt b a = false) := by
  refine pairwise_pySorted pyStrLt _ ?_ ?_ ?_ _
  · intro a b h
    exact pyStrLt_asymm h
  · intro a b h
    exact h
  · intro a b c h1 h2
    exact pyStrLt_not_lt_trans h1 h2

theorem pairwise_lt_remaining (pd : PeriodData) :
    (remaining_verification_types pd).Pairwise (fun a b => pyStrLt a b = true) := by
  have h3 := (pairwise_le_remaining pd).and (nodup_remaining pd)
  refine h3.imp ?_
  intro a b hab
  obtain ⟨hle, hne⟩ := hab
  cases h : pyStrLt a b with
  | true => rfl
  | false => exact absurd (pyStrLt_connex h hle) hne

theorem nodup_ordered (pd : PeriodData) : (ordered_verification_types pd).Nodup := by
  unfold ordered_verification_types
  rw [List.nodup_append]
  refine ⟨fixed_order_nodup, nodup_remaining pd, ?_⟩
  intro c hc hcr
  exact ((mem_remaining pd c).mp hcr).2 hc

theorem list_sum_map_add {α : Type} (l : List α) (f g : α → Int) :
    (l.map (fun x => f x + g x)).sum = (l.map f).sum + (l.map g).sum := by
  induction l with
  | nil => simp
  | cons a l ih =>
    simp [ih]
    ring

theorem not_in_ordered (pd : PeriodData) (c : String)
    (hF : c ∉ FIXED_VERIFICATION_ORDER)
    (hO : c ∉ get_all_verification_types pd) :
    c ∉ ordered_verification_types pd := by
  unfold ordered_verification_types
  intro hc
  rcases List.mem_append.mp hc with h | h
  · exact hF h
  · exact hO ((mem_remaining pd c).mp h).1

theorem row_lookup_explicit (sel name : String) (tail : List String) (g : String → CellValue)
    (hD : "Date" ∉ tail) (hU : "User" ∉ tail) (hnd : tail.Nodup) :
    (("Date" :: "User" :: tail).map
      (fun c => row_lookup
        (("Date", CellValue.str sel) :: ("User", CellValue.str name) ::
          tail.map (fun v => (v, g v))) c)) =
      CellValue.str sel :: CellValue.str name :: tail.map g := by
  simp only [List.map_cons]
  have hDU : ("Date" : String) ≠ "User" := by decide
  have c1 : row_lookup (("Date", CellValue.str sel) :: ("User", CellValue.str name) ::
      tail.map (fun v => (v, g v))) "Date" = CellValue.str sel := by
    simp [row_lookup, dictGet]
  have c2 : row_lookup (("Date", CellValue.str sel) :: ("User", CellValue.str name) ::
      tail.map (fun v => (v, g v))) "User" = CellValue.str name := by
    simp [row_lookup, dictGet, hDU]
  have c3 : ∀ c ∈ tail,
      row_lookup (("Date", CellValue.str sel) :: ("User", CellValue.str name) ::
        tail.map (fun v => (v, g v))) c = g c := by
    intro c hc
    have hcD : ("Date" : String) ≠ c := fun e => hD (e ▸ hc)
    have hcU : ("User" : String) ≠ c := fun e => hU (e ▸ hc)
    have hstep : row_lookup (("Date", CellValue.str sel) :: ("User", CellValue.str name) ::
        tail.map (fun v => (v, g v))) c =
        dictGet (tail.map (fun v => (v, g v))) c CellValue.na := by
      simp [row_lookup, dictGet, hcD, hcU]
    rw [hstep]
    exact dictGet_map_self g tail c CellValue.na hc hnd
  rw [c1, c2, List.map_congr_left c3]

/-! ## Theorems: claim-side ordering facts -/

theorem countDescCodeAsc_trans (a b c : String × Int) (h1 : countDescCodeAsc a b)
    (h2 : countDescCodeAsc b c) : countDescCodeAsc a c := by
  rcases h1 with h1 | ⟨e1, s1⟩
  · rcases h2 with h2 | ⟨e2, s2⟩
    · exact Or.inl (by omega)
    · exact Or.inl (by omega)
  · rcases h2 with h2 | ⟨e2, s2⟩
    · exact Or.inl (by omega)
    · exact Or.inr ⟨by omega, pyStrLt_not_lt_trans s1 s2⟩

theorem countDesc_trans (a b c : String × Int) (h1 : countDesc a b) (h2 : countDesc b c) :
    countDesc a c :=
  le_trans h2 h1

theorem fmt_lt_imp (a b : String × Int) (h : fmt_lt a b = true) : countDescCodeAsc a b := by
  unfold fmt_lt at h
  rcases Bool.or_eq_true _ _ |>.mp h with h1 | h1
  · exact Or.inl (of_decide_eq_true h1)
  · rcases Bool.and_eq_true _ _ |>.mp h1 with ⟨h2, h3⟩
    exact Or.inr ⟨of_decide_eq_true h2, pyStrLt_asymm h3⟩

theorem fmt_lt_not_imp (a b : String × Int) (h : fmt_lt a b = false) : countDescCodeAsc b a := by
  unfold fmt_lt at h
  rcases Bool.or_eq_false_iff.mp h with ⟨h1, h2⟩
  have hnotlt : ¬ b.2 < a.2 := of_decide_eq_false h1
  by_cases hlt : a.2 < b.2
  · exact Or.inl hlt
  · have heq : a.2 = b.2 := by omega
    have h3 : pyStrLt a.1 b.1 = false := by
      rcases Bool.and_eq_false_iff.mp h2 with h4 | h4
      · exact absurd (decide_eq_true heq) (by simp [h4])
      · exact h4
    exact Or.inr ⟨heq.symm, h3⟩

theorem count_lt_imp (a b : String × Int) (h : count_lt a b = true) : countDesc a b :=
  le_of_lt (of_decide_eq_true h)

theorem count_lt_not_imp (a b : String × Int) (h : count_lt a b = false) : countDesc b a := by
  have h2 := of_decide_eq_false h
  unfold countDesc
  omega

/-! ## The claims -/

/-- Claim C1: for every legacy-shape daily input, normalization emits for
every period and user the pair of the original process list and a summary
whose numeric fields are the field-wise sums over the records of that
user (absent fields counted as 0) and whose `verification_types_count`
maps each code to the additive sum of its counts across the records. -/
theorem legacy_daily_normalization (raw : RawData)
    (hfirst : first_user_is_list raw = true)
    (hall : all_legacy raw = true) :
    load_data_convert raw = Except.ok (mapConvert raw) ∧
    (∀ ps : List ProcessRecord,
      convert_legacy_value (RawUserValue.legacy ps) =
        RawUserValue.wrapped ⟨ps, summaryOf ps⟩) ∧
    (∀ ps : List ProcessRecord,
      (summaryOf ps).total_individuals =
          (ps.map (fun p => (p.total_individuals).getD 0)).sum ∧
      (summaryOf ps).successful_onboardings =
          (ps.map (fun p => (p.successful_onboardings).getD 0)).sum ∧
      (summaryOf ps).failed_onboardings =
          (ps.map (fun p => (p.failed_onboardings).getD 0)).sum ∧
      (summaryOf ps).discarded_candidates =
          (ps.map (fun p => (p.discarded_candidates).getD 0)).sum ∧
      (summaryOf ps).verifications_initiated =
          (ps.map (fun p => (p.verifications_initiated).getD 0)).sum) ∧
    (∀ ps : List ProcessRecord,
      (∀ p ∈ ps, (((p.verification_types_count).getD []).map Prod.fst).Nodup) →
      ∀ code, dictGet (summaryOf ps).verification_types_count code 0 =
        (ps.map (fun p => dictGet ((p.verification_types_count).getD []) code 0)).sum) :=
  ⟨load_data_convert_legacy raw hfirst hall,
   fun _ => rfl,
   fun _ => ⟨rfl, rfl, rfl, rfl, rfl⟩,
   fun ps h code => dictGet_userVerificationTypes ps h code⟩

/-- Witness for C1 at the worked legacy scenario of the spec. -/
theorem legacy_daily_normalization_witness :
    (first_user_is_list sampleLegacyRaw = true ∧ all_legacy sampleLegacyRaw = true) ∧
    (load_data_convert sampleLegacyRaw = Except.ok (mapConvert sampleLegacyRaw) ∧
     (∀ ps : List ProcessRecord,
       convert_legacy_value (RawUserValue.legacy ps) =
         RawUserValue.wrapped ⟨ps, summaryOf ps⟩) ∧
     (∀ ps : List ProcessRecord,
       (summaryOf ps).total_individuals =
           (ps.map (fun p => (p.total_individuals).getD 0)).sum ∧
       (summaryOf ps).successful_onboardings =
           (ps.map (fun p => (p.successful_onboardings).getD 0)).sum ∧
       (summaryOf ps).failed_onboardings =
           (ps.map (fun p => (p.failed_onboardings).getD 0)).sum ∧
       (summaryOf ps).discarded_candidates =
           (ps.map (fun p => (p.discarded_candidates).getD 0)).sum ∧
       (summaryOf ps).verifications_initiated =
           (ps.map (fun p => (p.verifications_initiated).getD 0)).sum) ∧
     (∀ ps : List ProcessRecord,
       (∀ p ∈ ps, (((p.verification_types_count).getD []).map Prod.fst).Nodup) →
       ∀ code, dictGet (summaryOf ps).verification_types_count code 0 =
         (ps.map (fun p => dictGet ((p.verification_types_count).getD []) code 0)).sum)) :=
  ⟨⟨by decide, by decide⟩,
   legacy_daily_normalization sampleLegacyRaw (by decide) (by decide)⟩

/-- Claim C2: the export column order is the fixed canonical list (each
entry exactly once, in order, even when absent from the data), followed
by the observed-but-unlisted codes in strictly ascending lexical order,
with no duplicates anywhere. -/
theorem column_order_fixed_then_lexical (pd : PeriodData) :
    ordered_verification_types pd =
        FIXED_VERIFICATION_ORDER ++ remaining_verification_types pd ∧
    (remaining_verification_types pd).Pairwise (fun a b => pyStrLt a b = true) ∧
    (∀ c, c ∈ remaining_verification_types pd ↔
        c ∈ get_all_verification_types pd ∧ c ∉ FIXED_VERIFICATION_ORDER) ∧
    (∀ c, c ∈ get_all_verification_types pd ↔
        ∃ ue ∈ pd, ∃ p ∈ ue.2.processes,
          c ∈ ((p.verification_types_count).getD []).map Prod.fst) ∧
    (ordered_verification_types pd).Nodup ∧
    (∀ c, c ∈ FIXED_VERIFICATION_ORDER →
        List.count c (ordered_verification_types pd) = 1) :=
  ⟨rfl, pairwise_lt_remaining pd, mem_remaining pd, mem_get_all pd, nodup_ordered pd,
   fun c hc => List.count_eq_one_of_mem (nodup_ordered pd)
     (List.mem_append.mpr (Or.inl hc))⟩

/-- Claim C3: the displayed discarded count is
`discarded_candidates + failed_onboardings`, applied exactly once, both
period-wide (equal to summing the per-user combination over all users)
and per user. -/
theorem discarded_combined_applied_once :
    (∀ pd : PeriodData,
      overall_discarded pd = (pd.map (fun ue => user_total_discarded ue.2)).sum) ∧
    (∀ ud : UserData,
      user_total_discarded ud =
        ud.summary.discarded_candidates + ud.summary.failed_onboardings) := by
  constructor
  · intro pd
    unfold overall_discarded overall_failed user_total_discarded
    rw [list_sum_map_add]
  · intro ud
    rfl

/-- Claim C4: for every user and each split field, the with-attachment
value plus the documents-only value equals the total, documents-only
being total minus with-attachment, never clamped — as the concrete
record with attachment individuals exceeding the summary total shows, a
negative value passes through unchanged. -/
theorem attachment_split_adds_up :
    (∀ ud : UserData,
      (user_excel_stats ud.processes).processes + (user_documents_only ud).processes =
          (user_totals ud).processes ∧
      (user_excel_stats ud.processes).individuals + (user_documents_only ud).individuals =
          (user_totals ud).individuals ∧
      (user_excel_stats ud.processes).successful + (user_documents_only ud).successful =
          (user_totals ud).successful ∧
      (user_excel_stats ud.processes).discarded + (user_documents_only ud).discarded =
          (user_totals ud).discarded ∧
      (user_excel_stats ud.processes).verifications + (user_documents_only ud).verifications =
          (user_totals ud).verifications ∧
      (user_documents_only ud).processes =
          (user_totals ud).processes - (user_excel_stats ud.processes).processes ∧
      (user_documents_only ud).individuals =
          (user_totals ud).individuals - (user_excel_stats ud.processes).individuals ∧
      (user_documents_only ud).successful =
          (user_totals ud).successful - (user_excel_stats ud.processes).successful ∧
      (user_documents_only ud).discarded =
          (user_totals ud).discarded - (user_excel_stats ud.processes).discarded ∧
      (user_documents_only ud).verifications =
          (user_totals ud).verifications - (user_excel_stats ud.processes).verifications) ∧
    (user_documents_only ⟨[⟨some 5, none, none, none, none, none,
        some (ExcelDoc.str "http://x")⟩], ⟨0, 0, 0, 0, 0, []⟩⟩).individuals = -5 := by
  constructor
  · intro ud
    simp only [user_documents_only]
    refine ⟨by omega, by omega, by omega, by omega, by omega,
      by trivial, by trivial, by trivial, by trivial, by trivial⟩
  · decide

/-- Claim C5: `has_excel_attachment` is true exactly when
`excel_document` is a non-empty string or a mapping with a non-empty
`s3_url`; it is false in every other case (absent, null, empty string,
mapping without a non-empty `s3_url`). -/
theorem has_excel_attachment_characterized (p : ProcessRecord) :
    has_excel_attachment p = true ↔
      ((∃ s, p.excel_document = some (ExcelDoc.str s) ∧ s ≠ "") ∨
       (∃ u, p.excel_document = some (ExcelDoc.dict (some u)) ∧ u ≠ "")) := by
  unfold has_excel_attachment
  cases h : p.excel_document with
  | none => simp [h]
  | some ed =>
    cases ed with
    | str s => simp [h]
    | dict o =>
      cases o with
      | none => simp [h]
      | some u => simp [h]
    | null => simp [h]

/-- Claim C6 counterexample: normalization raises for shape anomalies.
A non-empty dataset whose first period has no users hits `IndexError` in
the detection probe, and a dataset whose first value is a list but whose
second user is current-shape hits `AttributeError` in the conversion
loop — in both cases the computation does not complete. -/
theorem normalization_raises_on_shape_anomalies :
    load_data_convert [("01/01/2024", [])] = Except.error "IndexError" ∧
    load_data_convert [("01/01/2024",
        [("514833", RawUserValue.legacy []),
         ("591950", RawUserValue.wrapped ⟨[], ⟨0, 0, 0, 0, 0, []⟩⟩)])] =
      Except.error "AttributeError" :=
  ⟨rfl, rfl⟩

/-- Claim C6 (amended): for every raw daily dataset that is empty, or
whose first period has at least one user and whose values are uniformly
legacy lists (or whose first value is already current-shape),
normalization completes without raising; absent numeric fields are
treated as 0 and an absent verification mapping as empty, so a record
with every field absent contributes nothing to a summary. -/
theorem normalization_total_on_wellshaped (raw : RawData)
    (h : load_shape_ok raw = true) :
    (∃ out, load_data_convert raw = Except.ok out) ∧
    (∀ ps : List ProcessRecord,
      summaryOf (blank_process_record :: ps) = summaryOf ps) := by
  constructor
  · cases raw with
    | nil => exact ⟨[], rfl⟩
    | cons de rest =>
      obtain ⟨d, us⟩ := de
      cases us with
      | nil => exact absurd h (by simp [load_shape_ok])
      | cons ue us' =>
        obtain ⟨u, v⟩ := ue
        cases v with
        | wrapped ud => exact ⟨_, rfl⟩
        | legacy ps =>
          have hall : all_legacy ((d, (u, RawUserValue.legacy ps) :: us') :: rest) = true := h
          rw [load_data_convert_legacy ((d, (u, RawUserValue.legacy ps) :: us') :: rest)
            rfl hall]
          exact ⟨_, rfl⟩
  · intro ps
    unfold summaryOf userVerificationTypes
    simp [blank_process_record, mergeTallyInto]

/-- Witness for C6 at a two-user legacy dataset. -/
theorem normalization_total_on_wellshaped_witness :
    load_shape_ok sampleWellShapedRaw = true ∧
    ((∃ out, load_data_convert sampleWellShapedRaw = Except.ok out) ∧
     (∀ ps : List ProcessRecord,
       summaryOf (blank_process_record :: ps) = summaryOf ps)) :=
  ⟨by decide, normalization_total_on_wellshaped sampleWellShapedRaw (by decide)⟩

/-- Claim C7 counterexample: a present-but-unparseable source is not
turned into the SourceMissing outcome with an empty dataset — the parse
exception propagates uncaught, for the daily and the monthly loader
alike. -/
theorem unparseable_source_crashes :
    load_data SourceState.unparseable = LoadOutcome.exception "JSONDecodeError" ∧
    LoadOutcome.exception "JSONDecodeError" ≠ LoadOutcome.sourceMissing [] ∧
    load_monthly_data SourceState.unparseable = LoadOutcome.exception "JSONDecodeError" :=
  ⟨rfl, fun h => LoadOutcome.noConfusion h, rfl⟩

/-- Claim C7 (amended): for both the daily and the monthly source, a
source that cannot be located yields the empty dataset and signals the
SourceMissing condition instead of crashing; only a parse failure on a
present source propagates as an exception. -/
theorem missing_source_yields_empty :
    load_data SourceState.missing = LoadOutcome.sourceMissing [] ∧
    load_monthly_data SourceState.missing = LoadOutcome.sourceMissing [] :=
  ⟨rfl, rfl⟩

/-- Claim C8 counterexample: the period-total badge row sorts by count
descending only; with the tally `{B: 1, A: 1}` the rendered order keeps
`B` before `A`, violating the claimed tie-break by code ascending. -/
theorem badge_row_tie_not_code_sorted :
    sorted_total_verifications
        [("514833", ⟨[], ⟨0, 0, 0, 0, 0, [("B", 1), ("A", 1)]⟩⟩)] =
      [("B", 1), ("A", 1)] ∧
    ¬ countDescCodeAsc ("B", 1) ("A", 1) := by
  constructor
  · decide
  · intro h
    rcases h with h | ⟨_, h2⟩
    · exact absurd h (by decide)
    · rw [show pyStrLt "A" "B" = true by decide] at h2
      exact Bool.noConfusion h2

/-- Claim C8 (amended): the single-line cell rendering of
`format_verification_types` orders pairs by count descending with ties
broken by code ascending; the period-total badge row and the per-user
badge rows order pairs by count descending only. -/
theorem verification_rendering_orderings :
    (∀ t : Tally, (sorted_verifications t).Pairwise countDescCodeAsc) ∧
    (∀ pd : PeriodData, (sorted_total_verifications pd).Pairwise countDesc) ∧
    (∀ ud : UserData, (user_badge_row ud).Pairwise countDesc) := by
  refine ⟨fun t => ?_, fun pd => ?_, fun ud => ?_⟩
  · exact pairwise_pySorted fmt_lt countDescCodeAsc fmt_lt_imp fmt_lt_not_imp
      countDescCodeAsc_trans t
  · exact pairwise_pySorted count_lt countDesc count_lt_imp count_lt_not_imp
      countDesc_trans _
  · exact pairwise_pySorted count_lt countDesc count_lt_imp count_lt_not_imp
      countDesc_trans _

/-- Claim C9 counterexample: the first column of the exported table is
named `Date`, not `Period`, in both the daily and the monthly export. -/
theorem export_first_column_named_date :
    (create_excel_dataframe [("514833", ⟨[], ⟨1, 0, 0, 0, 0, []⟩⟩)]
        "01/01/2024").columns.head? = some "Date" ∧
    ("Date" : String) ≠ "Period" := by
  constructor
  · rw [create_excel_dataframe_columns]
    rfl
  · decide

/-- Claim C9 (amended): the exported table has one row per user; its
first two columns are named `Date` (holding the period key) and `User`
(the resolved display name, falling back to the raw identifier when
unknown), followed by the ordered verification-type columns, each cell
read from the merged summary tally of that user and zero when the code
is absent. -/
theorem export_table_shape (pd : PeriodData) (sel : String)
    (hD : "Date" ∉ get_all_verification_types pd)
    (hU : "User" ∉ get_all_verification_types pd) :
    (create_excel_dataframe pd sel).columns =
        "Date" :: "User" :: ordered_verification_types pd ∧
    (create_excel_dataframe pd sel).rows =
      pd.map (fun ue =>
        CellValue.str sel :: CellValue.str (get_user_display_name ue.1) ::
          (ordered_verification_types pd).map
            (fun v => CellValue.int (dictGet ue.2.summary.verification_types_count v 0))) ∧
    (∀ uid : String,
      (∀ n, lookup_user_name uid = some n → get_user_display_name uid = n) ∧
      (lookup_user_name uid = none → get_user_display_name uid = uid)) := by
  refine ⟨create_excel_dataframe_columns pd sel, ?_, ?_⟩
  · have hDo : "Date" ∉ ordered_verification_types pd :=
      not_in_ordered pd _ (by decide) hD
    have hUo : "User" ∉ ordered_verification_types pd :=
      not_in_ordered pd _ (by decide) hU
    rw [create_excel_dataframe_eq]
    simp only [excel_extra_nil, List.append_nil, List.map_map]
    refine List.map_congr_left ?_
    intro ue _
    simp only [Function.comp]
    rw [excel_row_eq sel _ ue.1 ue.2 (nodup_ordered pd) hDo hUo]
    exact row_lookup_explicit sel (get_user_display_name ue.1)
      (ordered_verification_types pd)
      (fun v => CellValue.int (dictGet ue.2.summary.verification_types_count v 0))
      hDo hUo (nodup_ordered pd)
  · intro uid
    constructor
    · intro n h
      simp [get_user_display_name, h]
    · intro h
      simp [get_user_display_name, h]

/-- Witness for C9 at a concrete one-user period. -/
theorem export_table_shape_witness :
    ("Date" ∉ get_all_verification_types samplePeriodData ∧
     "User" ∉ get_all_verification_types samplePeriodData) ∧
    ((create_excel_dataframe samplePeriodData "01/01/2024").columns =
        "Date" :: "User" :: ordered_verification_types samplePeriodData ∧
     (create_excel_dataframe samplePeriodData "01/01/2024").rows =
       samplePeriodData.map (fun ue =>
         CellValue.str "01/01/2024" :: CellValue.str (get_user_display_name ue.1) ::
           (ordered_verification_types samplePeriodData).map
             (fun v => CellValue.int (dictGet ue.2.summary.verification_types_count v 0))) ∧
     (∀ uid : String,
       (∀ n, lookup_user_name uid = some n → get_user_display_name uid = n) ∧
       (lookup_user_name uid = none → get_user_display_name uid = uid))) :=
  ⟨⟨by decide, by decide⟩,
   export_table_shape samplePeriodData "01/01/2024" (by decide) (by decide)⟩

/-- Claim C10: the columns beyond the fixed list come only from codes
observed in process records, while cell values are read from summary
tallies; hence a code that appears only in the summary tally of some
user (and in no process record and not in the fixed list) gets no
column, and its summary count is absent from the export. -/
theorem summary_only_code_dropped (pd : PeriodData) (sel c : String)
    (hFix : c ∉ FIXED_VERIFICATION_ORDER)
    (hObs : c ∉ get_all_verification_types pd)
    (hD : c ≠ "Date") (hU : c ≠ "User")
    (hSum : ∃ ue ∈ pd, c ∈ ue.2.summary.verification_types_count.map Prod.fst) :
    c ∉ (create_excel_dataframe pd sel).columns := by
  rw [create_excel_dataframe_columns]
  intro hc
  rcases List.mem_cons.mp hc with e | hc2
  · exact hD e
  rcases List.mem_cons.mp hc2 with e | hc3
  · exact hU e
  exact not_in_ordered pd c hFix hObs hc3

/-- Witness for C10: the code `ZZV` sits only in a summary tally and is
dropped from the export columns. -/
theorem summary_only_code_dropped_witness :
    ("ZZV" ∉ FIXED_VERIFICATION_ORDER ∧
     "ZZV" ∉ get_all_verification_types
        [("514833", ⟨[], ⟨0, 0, 0, 0, 0, [("ZZV", 5)]⟩⟩)] ∧
     ("ZZV" : String) ≠ "Date" ∧ ("ZZV" : String) ≠ "User" ∧
     (∃ ue ∈ [("514833", (⟨[], ⟨0, 0, 0, 0, 0, [("ZZV", 5)]⟩⟩ : UserData))],
        "ZZV" ∈ ue.2.summary.verification_types_count.map Prod.fst)) ∧
    "ZZV" ∉ (create_excel_dataframe
        [("514833", ⟨[], ⟨0, 0, 0, 0, 0, [("ZZV", 5)]⟩⟩)] "01/01/2024").columns :=
  ⟨⟨by decide, by decide, by decide, by decide, by decide⟩,
   summary_only_code_dropped _ _ _ (by decide) (by decide) (by decide) (by decide)
     (by decide)⟩
